import Mathlib

/-
  Verification development for the lambo-backend ingestion pipeline.

  The definitions below are a shallow embedding of the worker code
  (src/worker/sse.py, src/worker/tracker.py, src/worker/transactions.py,
  src/services/leaderboard_service.py, src/models.py).  Machine numbers are
  modelled as Nat/Int/Rat; JSON-optional fields as Option; fallible upstream
  calls as an explicit Fetch result type.  Python truthiness of the modelled
  values is spelled out at each use site.
-/

/-- Upstream transaction summary as returned by
`GET /v2/blockchain/accounts/{addr}/transactions` (fields `hash`, `lt`,
`utime`), the element type of pages consumed by
`JettonTracker.fetch_pool_transactions`. -/
structure UTx where
  hash : String
  lt : ℕ
  utime : ℕ
deriving DecidableEq

/-- Candidate transaction row as inserted by backfill and by the SSE live
tail (`models.Transaction` with the fields those writers set: `tx_hash`,
`lt` — stored as decimal text of a `ℕ`, modelled numerically — `timestamp`,
`pool_id`, `is_processed`). -/
structure CandTx where
  tx_hash : String
  lt : ℕ
  timestamp : ℕ
  pool_id : ℕ
  is_processed : Bool
deriving DecidableEq

/-- Per-pool checkpoint state (`models.Pool.last_processed_lt`, nullable
decimal text of an unsigned integer, and `last_sync_timestamp`).  `none`
models SQL NULL; the stored strings are always nonempty, so Python
truthiness of `pool.last_processed_lt` is `Option.isSome` here. -/
structure PoolSt where
  last_processed_lt : Option ℕ
  last_sync_timestamp : Option ℕ
deriving DecidableEq

/-- One parsed SSE JSON line (`event_id`, `lt`, `timestamp`; each may be
absent). -/
structure SseEvent where
  event_id : Option String
  lt : Option ℕ
  timestamp : Option ℕ
deriving DecidableEq

/-- The store as seen by `SSEMonitor.save_transaction`: the transactions
table and the monitored pool row (`none` when the pool row was deleted). -/
structure SseDb where
  txs : List CandTx
  pool : Option PoolSt
deriving DecidableEq

/-- SSEMonitor.save_transaction (src/worker/sse.py lines 59-100): ignore
events without a truthy `event_id`; re-read the pool row; skip when a row
with `tx_hash = event_id` already exists; otherwise insert the candidate
and set `last_processed_lt = str(lt)` and `last_sync_timestamp = now`
unconditionally.  `now` models `int(datetime.utcnow().timestamp())`. -/
def save_transaction (now : ℕ) (poolId : ℕ) (ev : SseEvent) (st : SseDb) : SseDb :=
  match ev.event_id with
  | none => st
  | some eid =>
    if eid = "" then st
    else
      match st.pool with
      | none => st
      | some _ =>
        if st.txs.any (fun t => t.tx_hash == eid) then st
        else
          let lt := ev.lt.getD 0
          { txs := st.txs ++ [⟨eid, lt, ev.timestamp.getD now, poolId, false⟩],
            pool := some ⟨some lt, some now⟩ }

/-- C10: a live-tail event line whose JSON payload has no `event_id` field is
ignored entirely: `save_transaction` returns the store unchanged, so no
candidate row is inserted and the pool's `last_processed_lt` and
`last_sync_timestamp` are untouched. -/
theorem sse_missing_event_id_ignored (now poolId : ℕ) (ev : SseEvent) (st : SseDb)
    (h : ev.event_id = none) :
    save_transaction now poolId ev st = st := by
  unfold save_transaction
  rw [h]

/-- Witness for C10 at a concrete store and event. -/
theorem sse_missing_event_id_ignored_witness :
    save_transaction 5 1 ⟨none, some 7, some 3⟩
        ⟨[⟨"a", 1, 1, 1, false⟩], some ⟨some 2, some 2⟩⟩
      = ⟨[⟨"a", 1, 1, 1, false⟩], some ⟨some 2, some 2⟩⟩ :=
  sse_missing_event_id_ignored 5 1 ⟨none, some 7, some 3⟩
    ⟨[⟨"a", 1, 1, 1, false⟩], some ⟨some 2, some 2⟩⟩ rfl

/-- C1: evaluation of the live tail at a checkpoint-regressing input.  With
the stored checkpoint at lt 100, an SSE event carrying lt 50 makes
`save_transaction` overwrite `last_processed_lt` with 50 < 100: the write is
not dropped and the strictly-greater guard claimed for the live tail does
not exist in the code. -/
theorem sse_checkpoint_regression :
    (save_transaction 2000 1 ⟨some "e1", some 50, some 1000⟩
        ⟨[], some ⟨some 100, some 60⟩⟩).pool = some ⟨some 50, some 2000⟩
      ∧ 50 < 100 := by
  exact ⟨rfl, by decide⟩

/-- Parameters of one `GET /v2/rates/chart` request as built by
`TransactionProcessor.get_ton_price_at_time`. -/
structure PriceQuery where
  start_date : ℤ
  end_date : ℤ
  points_count : ℕ
deriving DecidableEq

/-- Result of an upstream HTTP call: `ok` on 2xx with parsed body, `error`
models `raise_for_status` / connection errors / timeouts (any exception). -/
inductive Fetch (α : Type) where
  | ok (val : α)
  | error
deriving DecidableEq

/-- Request construction of `get_ton_price_at_time` (transactions.py lines
34-45): `start_date = timestamp - 300`, `end_date = timestamp + 300`,
`points_count = 10`. -/
def priceQueryOf (t : ℤ) : PriceQuery := ⟨t - 300, t + 300, 10⟩

/-- Python `min(points, key=...)`: fold that keeps the first element whose
key is minimal (a later element replaces the best only when strictly
smaller). -/
def minByFirst (key : ℤ × ℚ → ℤ) : ℤ × ℚ → List (ℤ × ℚ) → ℤ × ℚ
  | best, [] => best
  | best, p :: ps =>
    if key p < key best then minByFirst key p ps else minByFirst key best ps

/-- Pure tail of `get_ton_price_at_time` (transactions.py lines 51-57): on an
empty `points` list return 0.0, otherwise the price component of the point
whose timestamp is closest to the swap timestamp. -/
def pricePure (t : ℤ) (points : List (ℤ × ℚ)) : ℚ :=
  match points with
  | [] => 0
  | p :: ps => (minByFirst (fun q => |q.1 - t|) p ps).2

/-- TransactionProcessor.get_ton_price_at_time (transactions.py lines
34-57), with the chart endpoint abstracted as a function from the request
parameters to a fetched point list. -/
def get_ton_price_at_time (chart : PriceQuery → Fetch (List (ℤ × ℚ))) (t : ℤ) : Fetch ℚ :=
  match chart (priceQueryOf t) with
  | .error => .error
  | .ok pts => .ok (pricePure t pts)

theorem minByFirst_spec (key : ℤ × ℚ → ℤ) :
    ∀ (l : List (ℤ × ℚ)) (b : ℤ × ℚ),
      (minByFirst key b l = b ∨ minByFirst key b l ∈ l) ∧
      key (minByFirst key b l) ≤ key b ∧
      ∀ x ∈ l, key (minByFirst key b l) ≤ key x := by
  intro l
  induction l with
  | nil =>
    intro b
    refine ⟨Or.inl rfl, le_refl _, ?_⟩
    intro x hx
    exact absurd hx (List.not_mem_nil x)
  | cons p ps ih =>
    intro b
    rcases lt_or_le (key p) (key b) with h | h
    · obtain ⟨hm, hle, hall⟩ := ih p
      have hrw : minByFirst key b (p :: ps) = minByFirst key p ps := by
        simp [minByFirst, h]
      refine ⟨?_, ?_, ?_⟩
      · rcases hm with h1 | h1
        · exact Or.inr (by rw [hrw, h1]; exact List.mem_cons_self p ps)
        · exact Or.inr (by rw [hrw]; exact List.mem_cons_of_mem p h1)
      · rw [hrw]; exact le_trans hle (le_of_lt h)
      · intro x hx
        rcases List.mem_cons.mp hx with rfl | hx
        · rw [hrw]; exact hle
        · rw [hrw]; exact hall x hx
    · obtain ⟨hm, hle, hall⟩ := ih b
      have hrw : minByFirst key b (p :: ps) = minByFirst key b ps := by
        simp [minByFirst, not_lt.mpr h]
      refine ⟨?_, ?_, ?_⟩
      · rcases hm with h1 | h1
        · exact Or.inl (by rw [hrw, h1])
        · exact Or.inr (by rw [hrw]; exact List.mem_cons_of_mem p h1)
      · rw [hrw]; exact hle
      · intro x hx
        rcases List.mem_cons.mp hx with rfl | hx
        · rw [hrw]; exact le_trans hle h
        · rw [hrw]; exact hall x hx

/-- C8: the fiat price lookup queries the chart over
`[t - 300, t + 300]` with 10 sample points; on a nonempty chart it returns
the price of a point at minimal absolute timestamp distance to `t`, and on
an empty chart it returns 0. -/
theorem price_lookup_spec (chart : PriceQuery → Fetch (List (ℤ × ℚ))) (t : ℤ)
    (pts : List (ℤ × ℚ)) (h : chart (priceQueryOf t) = .ok pts) :
    (priceQueryOf t).start_date = t - 300 ∧
    (priceQueryOf t).end_date = t + 300 ∧
    (priceQueryOf t).points_count = 10 ∧
    (pts = [] → get_ton_price_at_time chart t = .ok 0) ∧
    (pts ≠ [] → ∃ q ∈ pts,
      get_ton_price_at_time chart t = .ok q.2 ∧
      ∀ r ∈ pts, |q.1 - t| ≤ |r.1 - t|) := by
  refine ⟨rfl, rfl, rfl, ?_, ?_⟩
  · intro hnil
    unfold get_ton_price_at_time
    rw [h, hnil]
    rfl
  · intro hne
    match pts, hne with
    | p :: ps, _ =>
      obtain ⟨hm, hle, hall⟩ := minByFirst_spec (fun q => |q.1 - t|) ps p
      refine ⟨minByFirst (fun q => |q.1 - t|) p ps, ?_, ?_, ?_⟩
      · rcases hm with h1 | h1
        · rw [h1]; exact List.mem_cons_self p ps
        · exact List.mem_cons_of_mem p h1
      · unfold get_ton_price_at_time
        rw [h]
        rfl
      · intro r hr
        rcases List.mem_cons.mp hr with rfl | hr
        · exact hle
        · exact hall r hr

/-- Witness for C8: chart `[(10, 5), (3, 7)]` at swap timestamp 4; the closest
point is `(3, 7)` at distance 1. -/
theorem price_lookup_spec_witness :
    (priceQueryOf 4).start_date = 4 - 300 ∧
    (priceQueryOf 4).end_date = 4 + 300 ∧
    (priceQueryOf 4).points_count = 10 ∧
    (([((10 : ℤ), (5 : ℚ)), (3, 7)] : List (ℤ × ℚ)) = [] →
      get_ton_price_at_time (fun _ => .ok [(10, 5), (3, 7)]) 4 = .ok 0) ∧
    (([((10 : ℤ), (5 : ℚ)), (3, 7)] : List (ℤ × ℚ)) ≠ [] →
      ∃ q ∈ ([((10 : ℤ), (5 : ℚ)), (3, 7)] : List (ℤ × ℚ)),
      get_ton_price_at_time (fun _ => .ok [(10, 5), (3, 7)]) 4 = .ok q.2 ∧
      ∀ r ∈ ([((10 : ℤ), (5 : ℚ)), (3, 7)] : List (ℤ × ℚ)), |q.1 - 4| ≤ |r.1 - 4|) :=
  price_lookup_spec (fun _ => .ok [(10, 5), (3, 7)]) 4 [(10, 5), (3, 7)] rfl

/-- Swap payload extracted by `find_swap_action` with the `.get(...)`
defaults already applied (transactions.py lines 76-93).  The nested
`user_wallet` / `jetton_master_in` / `jetton_master_out` dicts are collapsed
to their `address` entry: `none` covers a missing dict, a non-dict value and
a dict without `address`, exactly the cases in which the later
`isinstance`-guarded `.get("address")` yields `None`. -/
structure SwapAction where
  ton_in : ℤ
  ton_out : ℤ
  amount_in : String
  amount_out : String
  user_wallet : Option String
  jetton_master_in : Option String
  jetton_master_out : Option String
deriving DecidableEq

/-- Raw `JettonSwap` JSON payload; every key may be absent. -/
structure SwapJson where
  ton_in : Option ℤ
  ton_out : Option ℤ
  amount_in : Option String
  amount_out : Option String
  user_wallet : Option String
  jetton_master_in : Option String
  jetton_master_out : Option String
deriving DecidableEq

/-- One element of the event's `actions` array: its `type` tag and, when the
tag is `JettonSwap`, the payload (`none` also models an empty payload dict,
which the code skips via `if not swap: continue`). -/
structure JAction where
  typeTag : String
  jettonSwap : Option SwapJson
deriving DecidableEq

/-- Parsed body of `GET /v2/events/{tx_hash}`. -/
structure EventJson where
  event_id : Option String
  timestamp : Option ℕ
  actions : List JAction
deriving DecidableEq

/-- Defaults applied at extraction (transactions.py lines 76-83):
`swap.get("ton_in", 0)`, `swap.get("amount_in", "0")`, etc. -/
def extractSwap (j : SwapJson) : SwapAction :=
  ⟨j.ton_in.getD 0, j.ton_out.getD 0, j.amount_in.getD "0", j.amount_out.getD "0",
   j.user_wallet, j.jetton_master_in, j.jetton_master_out⟩

/-- TransactionProcessor.find_swap_action (transactions.py lines 59-101):
the first action tagged `JettonSwap` with a truthy payload, extracted;
`none` models the empty-dict return. -/
def find_swap_action (e : EventJson) : Option SwapAction :=
  (e.actions.filterMap (fun a =>
    if a.typeTag == "JettonSwap" then a.jettonSwap.map extractSwap else none)).head?

/-- Numeric value of a decimal digit string. -/
def digitsVal (s : String) : ℕ :=
  s.toList.foldl (fun n c => 10 * n + (c.toNat - 48)) 0

/-- Python `float(s)` as used on the upstream amount strings: in this model
it succeeds exactly on nonempty all-digit strings (upstream amounts are
integer minor units rendered in decimal); `none` models the `ValueError`
raised on anything else. -/
def parseFloat? (s : String) : Option ℚ :=
  if s ≠ "" ∧ s.toList.all Char.isDigit then some ((digitsVal s : ℕ) : ℚ) else none

/-- Terminal outcome of the direction decision: a buy or sell with the two
converted amounts, a fall-through to deletion, or an unhandled parse
exception. -/
inductive DirOutcome where
  | buy (ton lambo : ℚ)
  | sell (ton lambo : ℚ)
  | discard
  | err
deriving DecidableEq

/-- Direction decision of TransactionProcessor.process_transaction
(transactions.py lines 183-204).  The Python guard
`ton_in_nano and ton_in_nano > 0` collapses to `0 < ton_in` on integers,
and `amount_out_str and amount_out_str != ""` to nonemptiness; the float
conversions divide by 10^9; a conversion failure raises (outcome `err`). -/
def directionDecision (s : SwapAction) : DirOutcome :=
  if 0 < s.ton_in ∧ s.amount_out ≠ "" then
    match parseFloat? s.amount_out with
    | some q => .buy ((s.ton_in : ℚ) / 1000000000) (q / 1000000000)
    | none => .err
  else if 0 < s.ton_out ∧ s.amount_in ≠ "" then
    match parseFloat? s.amount_in with
    | some q => .sell ((s.ton_out : ℚ) / 1000000000) (q / 1000000000)
    | none => .err
  else .discard

/-- Wallet row (`models.Wallet`), with the six running totals, sync status
and flags used by the aggregator and the late-join reconciler. -/
structure WalletW where
  address : String
  buy_volume_lambo : ℚ
  sell_volume_lambo : ℚ
  total_volume_lambo : ℚ
  buy_volume_ton : ℚ
  sell_volume_ton : ℚ
  total_volume_ton : ℚ
  buy_volume_usd : ℚ
  sell_volume_usd : ℚ
  total_volume_usd : ℚ
  sync_status : String
  initial_sync_completed : Bool
  is_active : Bool
deriving DecidableEq

/-- Per-wallet effect of TransactionProcessor.update_wallet_volumes
(transactions.py lines 267-280): add to the buy or sell totals according to
`operation_type` (any value other than "buy" takes the sell branch), then
set each total to buy + sell. -/
def applyVolumes (op : String) (ton lambo price : ℚ) (w : WalletW) : WalletW :=
  let usd := ton * price
  let w1 :=
    if op == "buy" then
      { w with
        buy_volume_lambo := w.buy_volume_lambo + lambo
        buy_volume_ton := w.buy_volume_ton + ton
        buy_volume_usd := w.buy_volume_usd + usd }
    else
      { w with
        sell_volume_lambo := w.sell_volume_lambo + lambo
        sell_volume_ton := w.sell_volume_ton + ton
        sell_volume_usd := w.sell_volume_usd + usd }
  { w1 with
    total_volume_lambo := w1.buy_volume_lambo + w1.sell_volume_lambo
    total_volume_ton := w1.buy_volume_ton + w1.sell_volume_ton
    total_volume_usd := w1.buy_volume_usd + w1.sell_volume_usd }

/-- List-level update_wallet_volumes: the selected wallet (if present) is
replaced by its updated value, all other rows are untouched. -/
def update_wallet_volumes (ua op : String) (ton lambo price : ℚ)
    (ws : List WalletW) : List WalletW :=
  ws.map (fun w => if w.address == ua then applyVolumes op ton lambo price w else w)

/-- Full transaction row (`models.Transaction`) as seen by the classifier:
candidate fields plus the nullable swap fields set at promotion. -/
structure TxRow where
  tx_hash : String
  lt : ℕ
  timestamp : ℕ
  pool_id : ℕ
  user_address : Option String
  event_id : Option String
  operation_type : Option String
  ton_amount : Option ℚ
  lambo_amount : Option ℚ
  ton_usd_price : Option ℚ
  is_processed : Bool
deriving DecidableEq

/-- Pool row fields read by the classifier. -/
structure PoolRec where
  id : ℕ
  address : String
  jetton_master : Option String
deriving DecidableEq

/-- Store visible to the classifier: transactions and wallets. -/
structure PDb where
  txs : List TxRow
  wallets : List WalletW
deriving DecidableEq

/-- Result of one process_transaction call: the sequence of states committed
to the store in order (a crash may leave the store at any prefix point), the
final committed state, and the boolean return value. -/
structure PResult where
  commits : List PDb
  final : PDb
  ret : Bool
deriving DecidableEq

/-- Upstream environment of one classification: the event fetched for the
candidate's hash and the price-chart endpoint. -/
structure Env where
  event : Fetch EventJson
  chart : PriceQuery → Fetch (List (ℤ × ℚ))

/-- Row deletion (`db.delete(tx)`), keyed by tx_hash. -/
def deleteTx (h : String) (d : PDb) : PDb :=
  { d with txs := d.txs.filter (fun t => t.tx_hash != h) }

/-- Discard outcome: delete the candidate, commit, return False. -/
def discardResult (tx : TxRow) (d : PDb) : PResult :=
  let d1 := deleteTx tx.tx_hash d
  ⟨[d1], d1, false⟩

/-- Exception outcome (transactions.py lines 254-256): nothing was mutated
or committed; return False. -/
def errorResult (d : PDb) : PResult :=
  ⟨[], d, false⟩

/-- Promotion tail of process_transaction (transactions.py lines 206-252):
user-address check, content-duplicate check, field mutation with
`is_processed=True` and commit, then update_wallet_volumes with its own
commit (or an early return when the wallet is unknown). -/
def promoteStep (eid : Option String) (ts : ℕ) (price : ℚ) (uw : Option String)
    (op : String) (tonA lamboA : ℚ) (tx : TxRow) (db : PDb) : PResult :=
  match uw with
  | none => discardResult tx db
  | some ua =>
    if ua = "" then discardResult tx db
    else if db.txs.any (fun t => t.user_address == some ua && t.ton_amount == some tonA
        && t.lambo_amount == some lamboA && t.timestamp == ts && t.is_processed) then
      discardResult tx db
    else
      let tx1 : TxRow := { tx with
        user_address := some ua
        event_id := eid
        operation_type := some op
        ton_amount := some tonA
        lambo_amount := some lamboA
        ton_usd_price := some price
        timestamp := ts
        is_processed := true }
      let d1 : PDb := { db with
        txs := db.txs.map (fun t => if t.tx_hash == tx.tx_hash then tx1 else t) }
      if d1.wallets.any (fun w => w.address == ua) then
        let d2 : PDb := { d1 with
          wallets := update_wallet_volumes ua op tonA lamboA price d1.wallets }
        ⟨[d1, d2], d2, true⟩
      else ⟨[d1], d1, true⟩

/-- TransactionProcessor.process_transaction (transactions.py lines
126-256): pool lookup, event fetch, swap extraction, tracked-asset check,
event_id duplicate check, timestamp check, price fetch, direction decision,
then promotion or deletion.  Upstream fetch errors propagate to the
enclosing `except` (outcome `errorResult`). -/
def process_transaction (env : Env) (pools : List PoolRec) (tx : TxRow) (db : PDb) : PResult :=
  match pools.find? (fun p => p.id == tx.pool_id) with
  | none => discardResult tx db
  | some pool =>
    match pool.jetton_master with
    | none => discardResult tx db
    | some jm =>
      if jm = "" then discardResult tx db
      else
        match env.event with
        | .error => errorResult db
        | .ok ev =>
          match find_swap_action ev with
          | none => discardResult tx db
          | some s =>
            if s.jetton_master_in = some jm ∨ s.jetton_master_out = some jm then
              if (ev.event_id.getD "") ≠ "" ∧ db.txs.any (fun t =>
                  t.event_id == ev.event_id && t.is_processed) then
                discardResult tx db
              else
                match ev.timestamp with
                | none => discardResult tx db
                | some ts =>
                  if ts = 0 then discardResult tx db
                  else
                    match env.chart (priceQueryOf (ts : ℤ)) with
                    | .error => errorResult db
                    | .ok pts =>
                      let price := pricePure (ts : ℤ) pts
                      match directionDecision s with
                      | .err => errorResult db
                      | .discard => discardResult tx db
                      | .buy tonA lamboA =>
                        promoteStep ev.event_id ts price s.user_wallet "buy" tonA lamboA tx db
                      | .sell tonA lamboA =>
                        promoteStep ev.event_id ts price s.user_wallet "sell" tonA lamboA tx db
            else discardResult tx db

/-- Selection predicate of JettonTracker.process_pending_transactions
(tracker.py lines 441-446): rows with `is_processed = False` form the
pending set from which the next batches are drawn. -/
def pendingSet (d : PDb) : List TxRow :=
  d.txs.filter (fun t => !t.is_processed)

/-- Concrete swap payload for evaluating the promotion path: a buy of 2 TON
for 500 minor units of the tracked asset. -/
def c3swap : SwapJson :=
  ⟨some 2000000000, some 0, none, some "500", some "0:aa", none, some "JM"⟩

def c3event : EventJson := ⟨some "E", some 100, [⟨"JettonSwap", some c3swap⟩]⟩

def c3env : Env := ⟨.ok c3event, fun _ => .ok [(100, 3)]⟩

def c3pools : List PoolRec := [⟨1, "P", some "JM"⟩]

def c3tx : TxRow := ⟨"H", 5, 10, 1, none, none, none, none, none, none, false⟩

def c3wallet : WalletW := ⟨"0:aa", 0, 0, 0, 0, 0, 0, 0, 0, 0, "synced", true, true⟩

def c3db : PDb := ⟨[c3tx], [c3wallet]⟩

/-- C3: evaluation of the promotion path at a concrete input.  The
classifier produces TWO committed states: the first has the row promoted
(`is_processed = true`) while the wallet totals are still the old ones, and
only the second carries the aggregator update.  Promotion and aggregation
are therefore not in one atomic unit: a crash at the first commit point
leaves a classified row whose totals update is lost (the row is never
re-selected, since selection requires `is_processed = false`). -/
theorem promotion_and_aggregation_commit_separately :
    (process_transaction c3env c3pools c3tx c3db).ret = true ∧
    (process_transaction c3env c3pools c3tx c3db).commits.length = 2 ∧
    (∃ d ∈ (process_transaction c3env c3pools c3tx c3db).commits,
      (∃ t ∈ d.txs, t.tx_hash = "H" ∧ t.is_processed = true) ∧
      d.wallets = c3db.wallets) ∧
    (process_transaction c3env c3pools c3tx c3db).final.wallets ≠ c3db.wallets := by
  refine ⟨rfl, rfl, ?_, ?_⟩
  · refine ⟨_, List.mem_cons_self _ _, ⟨_, List.mem_cons_self _ _, rfl, rfl⟩, rfl⟩
  · intro h
    have h1 := congrArg (fun l => (l.head?.map WalletW.buy_volume_lambo)) h
    simp only [c3db, c3wallet, List.head?, Option.map] at h1
    have h2 : (0 : ℚ) + ((digitsVal "500" : ℕ) : ℚ) / 1000000000 = 0 := by
      exact Option.some.inj h1
    rw [show digitsVal "500" = 500 from by decide] at h2
    norm_num at h2

/-- C4: the direction decision of the classifier.  Under the hypotheses
that the candidate reaches the decision point (pool found with a nonempty
tracked asset, event fetched, swap action present and matching the tracked
asset, no duplicates, truthy timestamp, price fetched, truthy user wallet)
and that the amount strings are well formed (empty or all digits), the
outcome follows the claimed case split: `ton_in > 0` with nonempty
`amount_out` promotes a buy with `ton_amount = ton_in / 10^9` and
`lambo_amount = amount_out / 10^9`; otherwise `ton_out > 0` with nonempty
`amount_in` promotes a sell with the symmetric amounts; otherwise the
candidate's row is deleted. -/
theorem direction_decision_spec
    (env : Env) (pools : List PoolRec) (tx : TxRow) (db : PDb)
    (pool : PoolRec) (ev : EventJson) (s : SwapAction) (jm : String) (ts : ℕ)
    (pts : List (ℤ × ℚ)) (ua : String)
    (hpool : pools.find? (fun p => p.id == tx.pool_id) = some pool)
    (hjm : pool.jetton_master = some jm) (hjm0 : ¬jm = "")
    (hev : env.event = .ok ev)
    (hswap : find_swap_action ev = some s)
    (hmatch : s.jetton_master_in = some jm ∨ s.jetton_master_out = some jm)
    (hdup1 : ¬((ev.event_id.getD "") ≠ "" ∧ (db.txs.any (fun t =>
      t.event_id == ev.event_id && t.is_processed)) = true))
    (hts : ev.timestamp = some ts) (hts0 : ¬ts = 0)
    (hchart : env.chart (priceQueryOf (ts : ℤ)) = .ok pts)
    (huw : s.user_wallet = some ua) (hua : ¬ua = "")
    (hdup2 : ∀ tonA lamboA : ℚ, ¬(db.txs.any (fun t =>
      t.user_address == some ua && t.ton_amount == some tonA
      && t.lambo_amount == some lamboA && t.timestamp == ts && t.is_processed)) = true)
    (hwfin : s.amount_in = "" ∨ s.amount_in.toList.all Char.isDigit)
    (hwfout : s.amount_out = "" ∨ s.amount_out.toList.all Char.isDigit)
    (htx : tx ∈ db.txs) :
    ((0 < s.ton_in ∧ s.amount_out ≠ "") →
      (process_transaction env pools tx db).ret = true ∧
      ∃ t ∈ (process_transaction env pools tx db).final.txs,
        t.tx_hash = tx.tx_hash ∧ t.operation_type = some "buy" ∧
        t.ton_amount = some ((s.ton_in : ℚ) / 1000000000) ∧
        t.lambo_amount = some (((digitsVal s.amount_out : ℕ) : ℚ) / 1000000000) ∧
        t.is_processed = true) ∧
    (¬(0 < s.ton_in ∧ s.amount_out ≠ "") → (0 < s.ton_out ∧ s.amount_in ≠ "") →
      (process_transaction env pools tx db).ret = true ∧
      ∃ t ∈ (process_transaction env pools tx db).final.txs,
        t.tx_hash = tx.tx_hash ∧ t.operation_type = some "sell" ∧
        t.ton_amount = some ((s.ton_out : ℚ) / 1000000000) ∧
        t.lambo_amount = some (((digitsVal s.amount_in : ℕ) : ℚ) / 1000000000) ∧
        t.is_processed = true) ∧
    (¬(0 < s.ton_in ∧ s.amount_out ≠ "") → ¬(0 < s.ton_out ∧ s.amount_in ≠ "") →
      (process_transaction env pools tx db).ret = false ∧
      ∀ t ∈ (process_transaction env pools tx db).final.txs, t.tx_hash ≠ tx.tx_hash) := by
  have hred : process_transaction env pools tx db =
      (match directionDecision s with
       | .err => errorResult db
       | .discard => discardResult tx db
       | .buy tonA lamboA =>
         promoteStep ev.event_id ts (pricePure (ts : ℤ) pts) s.user_wallet "buy" tonA lamboA tx db
       | .sell tonA lamboA =>
         promoteStep ev.event_id ts (pricePure (ts : ℤ) pts) s.user_wallet "sell" tonA lamboA tx db) := by
    unfold process_transaction
    simp only [hpool, hjm, hev, hswap, hts, hchart]
    rw [if_neg hjm0, if_pos hmatch, if_neg hdup1, if_neg hts0]
  by_cases hb : 0 < s.ton_in ∧ s.amount_out ≠ ""
  · have hdig : s.amount_out.toList.all Char.isDigit := by
      rcases hwfout with h0 | h0
      · exact absurd h0 hb.2
      · exact h0
    have hparse : parseFloat? s.amount_out = some (((digitsVal s.amount_out : ℕ) : ℚ)) := by
      unfold parseFloat?
      rw [if_pos ⟨hb.2, hdig⟩]
    have hdir : directionDecision s =
        .buy ((s.ton_in : ℚ) / 1000000000) (((digitsVal s.amount_out : ℕ) : ℚ) / 1000000000) := by
      unfold directionDecision
      rw [if_pos hb, hparse]
    rw [hdir] at hred
    have hpro : ∀ d : PDb, d = (process_transaction env pools tx db).final →
        d.txs = db.txs.map (fun t => if t.tx_hash == tx.tx_hash then
          ({ tx with
             user_address := some ua
             event_id := ev.event_id
             operation_type := some "buy"
             ton_amount := some ((s.ton_in : ℚ) / 1000000000)
             lambo_amount := some (((digitsVal s.amount_out : ℕ) : ℚ) / 1000000000)
             ton_usd_price := some (pricePure (ts : ℤ) pts)
             timestamp := ts
             is_processed := true } : TxRow) else t) := by
      intro d hd
      rw [hd, hred]
      unfold promoteStep
      simp only [huw]
      rw [if_neg hua, if_neg (hdup2 _ _)]
      by_cases hw : (({ db with
          txs := db.txs.map (fun t => if t.tx_hash == tx.tx_hash then
            ({ tx with
               user_address := some ua
               event_id := ev.event_id
               operation_type := some "buy"
               ton_amount := some ((s.ton_in : ℚ) / 1000000000)
               lambo_amount := some (((digitsVal s.amount_out : ℕ) : ℚ) / 1000000000)
               ton_usd_price := some (pricePure (ts : ℤ) pts)
               timestamp := ts
               is_processed := true } : TxRow) else t) } : PDb)).wallets.any
            (fun w => w.address == ua) = true
      · rw [if_pos hw]
      · rw [if_neg hw]
    refine ⟨?_, ?_, ?_⟩
    · intro _
      constructor
      · rw [hred]
        unfold promoteStep
        simp only [huw]
        rw [if_neg hua, if_neg (hdup2 _ _)]
        by_cases hw : (({ db with
            txs := db.txs.map (fun t => if t.tx_hash == tx.tx_hash then
              ({ tx with
                 user_address := some ua
                 event_id := ev.event_id
                 operation_type := some "buy"
                 ton_amount := some ((s.ton_in : ℚ) / 1000000000)
                 lambo_amount := some (((digitsVal s.amount_out : ℕ) : ℚ) / 1000000000)
                 ton_usd_price := some (pricePure (ts : ℤ) pts)
                 timestamp := ts
                 is_processed := true } : TxRow) else t) } : PDb)).wallets.any
              (fun w => w.address == ua) = true
        · rw [if_pos hw]
        · rw [if_neg hw]
      · have hmem := List.mem_map_of_mem (f := fun t => if t.tx_hash == tx.tx_hash then
          ({ tx with
             user_address := some ua
             event_id := ev.event_id
             operation_type := some "buy"
             ton_amount := some ((s.ton_in : ℚ) / 1000000000)
             lambo_amount := some (((digitsVal s.amount_out : ℕ) : ℚ) / 1000000000)
             ton_usd_price := some (pricePure (ts : ℤ) pts)
             timestamp := ts
             is_processed := true } : TxRow) else t) htx
        rw [← hpro _ rfl] at hmem
        simp only [beq_self_eq_true, if_pos] at hmem
        exact ⟨_, hmem, rfl, rfl, rfl, rfl, rfl⟩
    · intro h1 _
      exact absurd hb h1
    · intro h1 _
      exact absurd hb h1
  · by_cases hs : 0 < s.ton_out ∧ s.amount_in ≠ ""
    · have hdig : s.amount_in.toList.all Char.isDigit := by
        rcases hwfin with h0 | h0
        · exact absurd h0 hs.2
        · exact h0
      have hparse : parseFloat? s.amount_in = some (((digitsVal s.amount_in : ℕ) : ℚ)) := by
        unfold parseFloat?
        rw [if_pos ⟨hs.2, hdig⟩]
      have hdir : directionDecision s =
          .sell ((s.ton_out : ℚ) / 1000000000) (((digitsVal s.amount_in : ℕ) : ℚ) / 1000000000) := by
        unfold directionDecision
        rw [if_neg hb, if_pos hs, hparse]
      rw [hdir] at hred
      refine ⟨fun h1 => absurd h1 hb, ?_, fun _ h2 => absurd hs h2⟩
      intro _ _
      constructor
      · rw [hred]
        unfold promoteStep
        simp only [huw]
        rw [if_neg hua, if_neg (hdup2 _ _)]
        by_cases hw : (({ db with
            txs := db.txs.map (fun t => if t.tx_hash == tx.tx_hash then
              ({ tx with
                 user_address := some ua
                 event_id := ev.event_id
                 operation_type := some "sell"
                 ton_amount := some ((s.ton_out : ℚ) / 1000000000)
                 lambo_amount := some (((digitsVal s.amount_in : ℕ) : ℚ) / 1000000000)
                 ton_usd_price := some (pricePure (ts : ℤ) pts)
                 timestamp := ts
                 is_processed := true } : TxRow) else t) } : PDb)).wallets.any
              (fun w => w.address == ua) = true
        · rw [if_pos hw]
        · rw [if_neg hw]
      · have hpro : (process_transaction env pools tx db).final.txs =
            db.txs.map (fun t => if t.tx_hash == tx.tx_hash then
              ({ tx with
                 user_address := some ua
                 event_id := ev.event_id
                 operation_type := some "sell"
                 ton_amount := some ((s.ton_out : ℚ) / 1000000000)
                 lambo_amount := some (((digitsVal s.amount_in : ℕ) : ℚ) / 1000000000)
                 ton_usd_price := some (pricePure (ts : ℤ) pts)
                 timestamp := ts
                 is_processed := true } : TxRow) else t) := by
          rw [hred]
          unfold promoteStep
          simp only [huw]
          rw [if_neg hua, if_neg (hdup2 _ _)]
          by_cases hw : (({ db with
              txs := db.txs.map (fun t => if t.tx_hash == tx.tx_hash then
                ({ tx with
                   user_address := some ua
                   event_id := ev.event_id
                   operation_type := some "sell"
                   ton_amount := some ((s.ton_out : ℚ) / 1000000000)
                   lambo_amount := some (((digitsVal s.amount_in : ℕ) : ℚ) / 1000000000)
                   ton_usd_price := some (pricePure (ts : ℤ) pts)
                   timestamp := ts
                   is_processed := true } : TxRow) else t) } : PDb)).wallets.any
                (fun w => w.address == ua) = true
          · rw [if_pos hw]
          · rw [if_neg hw]
        have hmem := List.mem_map_of_mem (f := fun t => if t.tx_hash == tx.tx_hash then
          ({ tx with
             user_address := some ua
             event_id := ev.event_id
             operation_type := some "sell"
             ton_amount := some ((s.ton_out : ℚ) / 1000000000)
             lambo_amount := some (((digitsVal s.amount_in : ℕ) : ℚ) / 1000000000)
             ton_usd_price := some (pricePure (ts : ℤ) pts)
             timestamp := ts
             is_processed := true } : TxRow) else t) htx
        rw [← hpro] at hmem
        simp only [beq_self_eq_true, if_pos] at hmem
        exact ⟨_, hmem, rfl, rfl, rfl, rfl, rfl⟩
    · have hdir : directionDecision s = .discard := by
        unfold directionDecision
        rw [if_neg hb, if_neg hs]
      rw [hdir] at hred
      refine ⟨fun h1 => absurd h1 hb, fun _ h2 => absurd h2 hs, ?_⟩
      intro _ _
      rw [hred]
      refine ⟨rfl, ?_⟩
      intro t ht
      have := List.mem_filter.mp ht
      simpa using this.2

/-- Concrete buy event for the C4 witness (spec scenario 1: 1.5 TON in,
250e9 minor units of the tracked asset out). -/
def c4swap : SwapJson :=
  ⟨some 1500000000, some 0, none, some "250000000000", some "0:aa", none, some "JM"⟩

def c4event : EventJson := ⟨some "E4", some 777, [⟨"JettonSwap", some c4swap⟩]⟩

def c4env : Env := ⟨.ok c4event, fun _ => .ok [(777, 6)]⟩

def c4pools : List PoolRec := [⟨2, "P4", some "JM"⟩]

def c4tx : TxRow := ⟨"H4", 5, 10, 2, none, none, none, none, none, none, false⟩

def c4db : PDb := ⟨[c4tx], []⟩

def c4s : SwapAction := extractSwap c4swap

/-- Witness for C4 at the concrete buy event. -/
theorem direction_decision_spec_witness :
    ((0 < c4s.ton_in ∧ c4s.amount_out ≠ "") →
      (process_transaction c4env c4pools c4tx c4db).ret = true ∧
      ∃ t ∈ (process_transaction c4env c4pools c4tx c4db).final.txs,
        t.tx_hash = c4tx.tx_hash ∧ t.operation_type = some "buy" ∧
        t.ton_amount = some ((c4s.ton_in : ℚ) / 1000000000) ∧
        t.lambo_amount = some (((digitsVal c4s.amount_out : ℕ) : ℚ) / 1000000000) ∧
        t.is_processed = true) ∧
    (¬(0 < c4s.ton_in ∧ c4s.amount_out ≠ "") → (0 < c4s.ton_out ∧ c4s.amount_in ≠ "") →
      (process_transaction c4env c4pools c4tx c4db).ret = true ∧
      ∃ t ∈ (process_transaction c4env c4pools c4tx c4db).final.txs,
        t.tx_hash = c4tx.tx_hash ∧ t.operation_type = some "sell" ∧
        t.ton_amount = some ((c4s.ton_out : ℚ) / 1000000000) ∧
        t.lambo_amount = some (((digitsVal c4s.amount_in : ℕ) : ℚ) / 1000000000) ∧
        t.is_processed = true) ∧
    (¬(0 < c4s.ton_in ∧ c4s.amount_out ≠ "") → ¬(0 < c4s.ton_out ∧ c4s.amount_in ≠ "") →
      (process_transaction c4env c4pools c4tx c4db).ret = false ∧
      ∀ t ∈ (process_transaction c4env c4pools c4tx c4db).final.txs,
        t.tx_hash ≠ c4tx.tx_hash) :=
  direction_decision_spec c4env c4pools c4tx c4db ⟨2, "P4", some "JM"⟩ c4event c4s "JM" 777
    [(777, 6)] "0:aa" rfl rfl (by decide) rfl rfl (Or.inr rfl) (by decide) rfl (by decide)
    rfl rfl (by decide) (fun tonA lamboA h => Bool.noConfusion h) (Or.inr (by decide))
    (Or.inr (by decide)) (by decide)

/-- C9: when fetching the event tree or the price chart raises, the
candidate is retried, never dropped: `process_transaction` returns False
with no commit, so the store is unchanged, the row is neither deleted nor
marked processed, and it still belongs to the pending set from which
`process_pending_transactions` draws its batches. -/
theorem fetch_error_retries_candidate
    (env : Env) (pools : List PoolRec) (tx : TxRow) (db : PDb) (pool : PoolRec) (jm : String)
    (hpool : pools.find? (fun p => p.id == tx.pool_id) = some pool)
    (hjm : pool.jetton_master = some jm) (hjm0 : ¬jm = "")
    (htx : tx ∈ db.txs) (hunp : tx.is_processed = false)
    (h : env.event = .error ∨ ∃ ev s ts, env.event = .ok ev ∧ find_swap_action ev = some s ∧
      (s.jetton_master_in = some jm ∨ s.jetton_master_out = some jm) ∧
      ¬((ev.event_id.getD "") ≠ "" ∧ (db.txs.any (fun t =>
        t.event_id == ev.event_id && t.is_processed)) = true) ∧
      ev.timestamp = some ts ∧ ¬ts = 0 ∧ env.chart (priceQueryOf (ts : ℤ)) = .error) :
    (process_transaction env pools tx db).ret = false ∧
    (process_transaction env pools tx db).commits = [] ∧
    (process_transaction env pools tx db).final = db ∧
    tx ∈ pendingSet (process_transaction env pools tx db).final := by
  have key : process_transaction env pools tx db = errorResult db := by
    rcases h with he | ⟨ev, s, ts, hev, hswap, hmatch, hdup1, hts, hts0, hchart⟩
    · unfold process_transaction
      simp only [hpool, hjm, he]
      rw [if_neg hjm0]
    · unfold process_transaction
      simp only [hpool, hjm, hev, hswap, hts, hchart]
      rw [if_neg hjm0, if_pos hmatch, if_neg hdup1, if_neg hts0]
  rw [key]
  refine ⟨rfl, rfl, rfl, ?_⟩
  unfold pendingSet errorResult
  exact List.mem_filter.mpr ⟨htx, by simp [hunp]⟩

def c9pools : List PoolRec := [⟨3, "P9", some "J9"⟩]

def c9tx : TxRow := ⟨"H9", 1, 2, 3, none, none, none, none, none, none, false⟩

def c9db : PDb := ⟨[c9tx], []⟩

def c9env : Env := ⟨.error, fun _ => .error⟩

/-- Witness for C9: the event fetch fails for a concrete candidate. -/
theorem fetch_error_retries_candidate_witness :
    (process_transaction c9env c9pools c9tx c9db).ret = false ∧
    (process_transaction c9env c9pools c9tx c9db).commits = [] ∧
    (process_transaction c9env c9pools c9tx c9db).final = c9db ∧
    c9tx ∈ pendingSet (process_transaction c9env c9pools c9tx c9db).final :=
  fetch_error_retries_candidate c9env c9pools c9tx c9db ⟨3, "P9", some "J9"⟩ "J9"
    rfl rfl (by decide) (by decide) rfl (Or.inl rfl)

/-- One page of `GET /v2/blockchain/accounts/{addr}/transactions` with
`limit=1000`: the upstream history (a fixed list for one pool), restricted
to `lt` strictly below `before_lt` when that parameter is sent, newest
first, truncated to 1000 entries. -/
def apiPage (hist : List UTx) (before : Option ℕ) : List UTx :=
  (match before with
   | none => hist
   | some b => hist.filter (fun t => decide (t.lt < b))).take 1000

/-- The `lt` of the last element of a page (`transactions[-1]["lt"]`),
used as the next `before_lt`. -/
def lastLt (page : List UTx) : ℕ :=
  ((page.getLast?).map UTx.lt).getD 0

/-- The `utime` of the last accumulated transaction
(`all_transactions[-1]["utime"]`). -/
def lastUtime (txs : List UTx) : ℕ :=
  ((txs.getLast?).map UTx.utime).getD 0

/-- Final filter of fetch_pool_transactions (tracker.py lines 370-372),
applied only on the loop-break exits: in first-run mode (`after_lt` absent,
`start_timestamp` truthy) keep transactions with `utime ≥ start_timestamp`. -/
def postFilter (startTs afterLt : Option ℕ) (txs : List UTx) : List UTx :=
  if afterLt.isNone ∧ startTs.getD 0 ≠ 0 then
    txs.filter (fun t => decide (startTs.getD 0 ≤ t.utime))
  else txs

/-- Pagination loop of fetch_pool_transactions (tracker.py lines 291-363),
sequentialized: fetch the page below `before`; an empty page breaks the loop
(post-filter applied); a short page returns the accumulated list directly
(tracker.py line 350 returns before the filter); otherwise advance
`before_lt` to the page's last `lt` and, in first-run mode, break once the
last accumulated `utime` has reached `start_timestamp`.  The fuel argument
is an upper bound on the number of pages; `before` strictly decreases, so
`before + 1` suffices. -/
def fetchLoop (hist : List UTx) (startTs afterLt : Option ℕ) :
    ℕ → ℕ → List UTx → List UTx
  | 0, _, acc => acc
  | fuel + 1, before, acc =>
    let page := apiPage hist (some before)
    if page.isEmpty then postFilter startTs afterLt acc
    else
      let acc2 := acc ++ page
      if page.length < 1000 then acc2
      else if afterLt.isNone ∧ startTs.getD 0 ≠ 0 ∧ lastUtime acc2 ≤ startTs.getD 0 then
        postFilter startTs afterLt acc2
      else fetchLoop hist startTs afterLt fuel (lastLt page) acc2

/-- JettonTracker.fetch_pool_transactions (tracker.py lines 225-374),
sequentialized (one in-flight request; the adaptive-concurrency batches
issue identical requests whose identical pages do not change the set of
distinct transactions observed).  The `after_lt` argument is passed as the
`before_lt` of the very first page request (tracker.py line 265), so in
resume mode the upstream returns only transactions with `lt` strictly BELOW
the checkpoint.  A first page shorter than the limit returns immediately
(line 280), skipping the start-date filter. -/
def fetch_pool_transactions (hist : List UTx) (startTs afterLt : Option ℕ) : List UTx :=
  let firstPage := apiPage hist afterLt
  if firstPage.isEmpty then []
  else if firstPage.length < 1000 then firstPage
  else fetchLoop hist startTs afterLt (lastLt firstPage + 1) (lastLt firstPage) firstPage

/-- State of the candidate-filtering loop of initial_pool_sync: the
transactions table, the `added` counter, `max_added_lt`, and the pool row
fields as committed so far. -/
structure LoopSt where
  db : List CandTx
  added : ℕ
  maxAdded : ℕ
  poolLt : Option ℕ
  poolSync : Option ℕ
deriving DecidableEq

/-- Selection of `check_tasks` within one batch (tracker.py lines 140-155):
walk the batch in order; break at the first transaction with
`lt ≤ stop_at_lt` when `stop_at_lt > 0`; skip transactions whose `tx_hash`
is already stored (the session query sees pending inserts of earlier batches
through autoflush); keep the rest for the tracked-asset check. -/
def selectBatch (stopAt : ℕ) (dbc : List CandTx) : List UTx → List UTx
  | [] => []
  | t :: ts =>
    if 0 < stopAt ∧ t.lt ≤ stopAt then []
    else if dbc.any (fun c => c.tx_hash == t.hash) then selectBatch stopAt dbc ts
    else t :: selectBatch stopAt dbc ts

/-- Insertion of the checked batch (tracker.py lines 161-184): for each
selected transaction whose tracked-asset check succeeds, add the candidate
row, bump `added` and `max_added_lt`; failures and non-tracked transactions
are only counted as skipped. -/
def insertChecked (isLambo : String → Bool) (pid : ℕ) : List UTx → LoopSt → LoopSt
  | [], st => st
  | t :: ts, st =>
    if isLambo t.hash then
      insertChecked isLambo pid ts
        { st with
          db := st.db ++ [⟨t.hash, t.lt, t.utime, pid, false⟩]
          added := st.added + 1
          maxAdded := max st.maxAdded t.lt }
    else insertChecked isLambo pid ts st

/-- Intermediate checkpoint (tracker.py lines 186-195), evaluated after each
batch: when `added % 50 == 0` commit, and if `max_added_lt > stop_at_lt`
persist it as `last_processed_lt`, stamp `last_sync_timestamp`, and reset
`max_added_lt`. -/
def checkpointStep (stopAt now : ℕ) (st : LoopSt) : LoopSt :=
  if st.added % 50 = 0 then
    if stopAt < st.maxAdded then
      { st with poolLt := some st.maxAdded, poolSync := some now, maxAdded := 0 }
    else st
  else st

/-- The batch loop of initial_pool_sync over the chunked transaction list
(tracker.py lines 132-195). -/
def syncChunks (stopAt now : ℕ) (isLambo : String → Bool) (pid : ℕ) :
    List (List UTx) → LoopSt → LoopSt
  | [], st => st
  | b :: bs, st =>
    syncChunks stopAt now isLambo pid bs
      (checkpointStep stopAt now (insertChecked isLambo pid (selectBatch stopAt st.db b) st))

/-- Chunking of the fetched list into filter batches of
`filter_batch_size = 2 * max_concurrent_checks = 4` (tracker.py lines
129-133), via structural fuel. -/
def chunk4Go : ℕ → List UTx → List (List UTx)
  | 0, _ => []
  | _, [] => []
  | fuel + 1, l => l.take 4 :: chunk4Go fuel (l.drop 4)

def chunk4 (l : List UTx) : List (List UTx) := chunk4Go l.length l

/-- Python `max(...)` over the generator of fetched lts above the
checkpoint: `none` models the `ValueError` on an empty generator, which the
surrounding `except` turns into skipping the checkpoint update. -/
def maxLt? : List ℕ → Option ℕ
  | [] => none
  | x :: xs => some (xs.foldl max x)

/-- Result of one per-pool backfill run: the transactions table, the pool
row, and the number of inserted candidates. -/
structure SyncResult where
  db : List CandTx
  pool : PoolSt
  added : ℕ
deriving DecidableEq

/-- Mode selection of initial_pool_sync (tracker.py lines 92-105): resume
mode passes the checkpoint as `after_lt`; first-run mode passes the
configured epoch as `start_timestamp`. -/
def backfillFetch (hist : List UTx) (startTs : ℕ) (pool : PoolSt) : List UTx :=
  if pool.last_processed_lt.isSome then
    fetch_pool_transactions hist none pool.last_processed_lt
  else
    fetch_pool_transactions hist (some startTs) none

/-- Final checkpoint update of initial_pool_sync (tracker.py lines 200-214):
only when candidates were added and the fetched list is nonempty, set
`last_processed_lt` to the maximum fetched `lt` above the old checkpoint
(a `ValueError` of the empty `max` lands in the outer `except`, skipping the
update). -/
def syncFinish (allTxs : List UTx) (stopAt now : ℕ) (st : LoopSt) : SyncResult :=
  if 0 < st.added ∧ allTxs ≠ [] then
    match maxLt? ((allTxs.filter (fun t => decide (stopAt < t.lt))).map UTx.lt) with
    | some m => ⟨st.db, ⟨some m, some now⟩, st.added⟩
    | none => ⟨st.db, ⟨st.poolLt, st.poolSync⟩, st.added⟩
  else ⟨st.db, ⟨st.poolLt, st.poolSync⟩, st.added⟩

/-- Per-pool body of JettonTracker.initial_pool_sync (tracker.py lines
88-214): fetch according to the checkpoint mode, filter/insert in batches
with `stop_at_lt = int(last_processed_lt) if truthy else 0`, then apply the
final checkpoint update.  (The source iterates this body over all active
pools.) -/
def initial_pool_sync (hist : List UTx) (isLambo : String → Bool)
    (startTs now pid : ℕ) (pool : PoolSt) (db : List CandTx) : SyncResult :=
  syncFinish (backfillFetch hist startTs pool) (pool.last_processed_lt.getD 0) now
    (syncChunks (pool.last_processed_lt.getD 0) now isLambo pid
      (chunk4 (backfillFetch hist startTs pool))
      ⟨db, 0, 0, pool.last_processed_lt, pool.last_sync_timestamp⟩)

def c2hist : List UTx := [⟨"h2", 150, 1000⟩, ⟨"h1", 100, 900⟩, ⟨"h0", 50, 800⟩]

def c2pool : PoolSt := ⟨some 100, some 900⟩

def c2db : List CandTx := [⟨"h1", 100, 900, 7, false⟩]

/-- C2: evaluation of a resume-mode backfill run.  Upstream history holds
h2 at lt 150, strictly above the checkpoint 100, yet the run inserts
nothing, because `after_lt` is passed as the API's `before_lt`
(tracker.py line 265): only transactions BELOW the checkpoint are ever
fetched, and the filter loop then drops all of them.  The run returns the
store and the checkpoint unchanged, with h2 never persisted, although the
claim requires every transaction with lt above the checkpoint to be
persisted. -/
theorem backfill_resume_misses_new_transactions :
    initial_pool_sync c2hist (fun _ => true) 0 5000 7 c2pool c2db = ⟨c2db, c2pool, 0⟩ ∧
    ∃ t ∈ c2hist, 100 < t.lt ∧ ∀ c ∈ c2db, c.tx_hash ≠ t.hash := by
  decide

theorem apiPage_lt (hist : List UTx) (b : ℕ) : ∀ t ∈ apiPage hist (some b), t.lt < b := by
  intro t ht
  unfold apiPage at ht
  have h2 : t ∈ hist.filter (fun t => decide (t.lt < b)) := List.take_subset _ _ ht
  exact of_decide_eq_true (List.mem_filter.mp h2).2

theorem postFilter_subset (s a : Option ℕ) (l : List UTx) : ∀ t ∈ postFilter s a l, t ∈ l := by
  intro t ht
  unfold postFilter at ht
  split at ht
  · exact List.mem_of_mem_filter ht
  · exact ht

theorem lastLt_le (hist : List UTx) (b : ℕ) : lastLt (apiPage hist (some b)) ≤ b := by
  unfold lastLt
  cases hgl : (apiPage hist (some b)).getLast? with
  | none => simp
  | some x =>
    have hx : x ∈ apiPage hist (some b) := List.mem_of_mem_getLast? hgl
    simpa using le_of_lt (apiPage_lt hist b x hx)

theorem fetchLoop_all_lt (hist : List UTx) (startTs afterLt : Option ℕ) (c : ℕ) :
    ∀ (fuel before : ℕ) (acc : List UTx), before ≤ c → (∀ t ∈ acc, t.lt < c) →
      ∀ t ∈ fetchLoop hist startTs afterLt fuel before acc, t.lt < c := by
  intro fuel
  induction fuel with
  | zero =>
    intro before acc _ hacc t ht
    exact hacc t ht
  | succ n ih =>
    intro before acc hb hacc t ht
    simp only [fetchLoop] at ht
    have hacc2 : ∀ u ∈ acc ++ apiPage hist (some before), u.lt < c := by
      intro u hu
      rcases List.mem_append.mp hu with h1 | h1
      · exact hacc u h1
      · exact lt_of_lt_of_le (apiPage_lt hist before u h1) hb
    split at ht
    · exact hacc t (postFilter_subset _ _ _ t ht)
    · split at ht
      · exact hacc2 t ht
      · split at ht
        · exact hacc2 t (postFilter_subset _ _ _ t ht)
        · exact ih (lastLt (apiPage hist (some before))) _
            (le_trans (lastLt_le hist before) hb) hacc2 t ht

theorem fetch_resume_all_lt (hist : List UTx) (c : ℕ) :
    ∀ t ∈ fetch_pool_transactions hist none (some c), t.lt < c := by
  intro t ht
  simp only [fetch_pool_transactions] at ht
  split at ht
  · exact absurd ht (List.not_mem_nil t)
  · split at ht
    · exact apiPage_lt hist c t ht
    · exact fetchLoop_all_lt hist none (some c) c _ _ _
        (lastLt_le hist c) (fun u hu => apiPage_lt hist c u hu) t ht

theorem chunk4Go_mem :
    ∀ (fuel : ℕ) (l : List UTx) (b : List UTx), b ∈ chunk4Go fuel l → ∀ t ∈ b, t ∈ l := by
  intro fuel
  induction fuel with
  | zero =>
    intro l b hb t _
    simp only [chunk4Go] at hb
    exact absurd hb (List.not_mem_nil b)
  | succ n ih =>
    intro l b hb t htb
    cases l with
    | nil =>
      simp only [chunk4Go] at hb
      exact absurd hb (List.not_mem_nil b)
    | cons x xs =>
      simp only [chunk4Go] at hb
      rcases List.mem_cons.mp hb with rfl | hb2
      · exact List.take_subset _ _ htb
      · exact List.drop_subset _ _ (ih _ b hb2 t htb)

theorem chunk4_mem (l : List UTx) (b : List UTx) (hb : b ∈ chunk4 l) :
    ∀ t ∈ b, t ∈ l :=
  chunk4Go_mem l.length l b hb

theorem selectBatch_stop (stopAt : ℕ) (dbc : List CandTx) (b : List UTx)
    (hst : 0 < stopAt) (h : ∀ t ∈ b, t.lt ≤ stopAt) : selectBatch stopAt dbc b = [] := by
  cases b with
  | nil => rfl
  | cons t ts =>
    simp only [selectBatch]
    rw [if_pos ⟨hst, h t (List.mem_cons_self t ts)⟩]

theorem selectBatch_mem (stopAt : ℕ) (dbc : List CandTx) :
    ∀ (b : List UTx) (t : UTx), t ∈ selectBatch stopAt dbc b →
      t ∈ b ∧ dbc.any (fun c => c.tx_hash == t.hash) = false := by
  intro b
  induction b with
  | nil =>
    intro t ht
    exact absurd ht (List.not_mem_nil t)
  | cons x xs ih =>
    intro t ht
    simp only [selectBatch] at ht
    split at ht
    · exact absurd ht (List.not_mem_nil t)
    · split at ht
      · obtain ⟨h1, h2⟩ := ih t ht
        exact ⟨List.mem_cons_of_mem x h1, h2⟩
      · next hq =>
        rcases List.mem_cons.mp ht with rfl | ht2
        · exact ⟨List.mem_cons_self t xs, Bool.eq_false_iff.mpr hq⟩
        · obtain ⟨h1, h2⟩ := ih t ht2
          exact ⟨List.mem_cons_of_mem x h1, h2⟩

theorem selectBatch_cover (dbc : List CandTx) :
    ∀ (b : List UTx) (t : UTx), t ∈ b →
      dbc.any (fun c => c.tx_hash == t.hash) = true ∨ t ∈ selectBatch 0 dbc b := by
  intro b
  induction b with
  | nil =>
    intro t ht
    exact absurd ht (List.not_mem_nil t)
  | cons x xs ih =>
    intro t ht
    simp only [selectBatch]
    rw [if_neg (by simp)]
    rcases List.mem_cons.mp ht with rfl | ht2
    · by_cases hq : dbc.any (fun c => c.tx_hash == t.hash) = true
      · exact Or.inl hq
      · rw [if_neg hq]
        exact Or.inr (List.mem_cons_self _ _)
    · rcases ih t ht2 with h1 | h1
      · exact Or.inl h1
      · by_cases hq : dbc.any (fun c => c.tx_hash == x.hash) = true
        · rw [if_pos hq]
          exact Or.inr h1
        · rw [if_neg hq]
          exact Or.inr (List.mem_cons_of_mem x h1)

theorem insertChecked_db_sub (isLambo : String → Bool) (pid : ℕ) :
    ∀ (sel : List UTx) (st : LoopSt) (x : CandTx), x ∈ st.db →
      x ∈ (insertChecked isLambo pid sel st).db := by
  intro sel
  induction sel with
  | nil =>
    intro st x hx
    exact hx
  | cons t ts ih =>
    intro st x hx
    simp only [insertChecked]
    split
    · exact ih _ x (List.mem_append_left _ hx)
    · exact ih _ x hx

theorem insertChecked_covers (isLambo : String → Bool) (pid : ℕ) :
    ∀ (sel : List UTx) (st : LoopSt) (t : UTx), t ∈ sel → isLambo t.hash = true →
      ∃ c ∈ (insertChecked isLambo pid sel st).db, c.tx_hash = t.hash := by
  intro sel
  induction sel with
  | nil =>
    intro st t ht
    exact absurd ht (List.not_mem_nil t)
  | cons x xs ih =>
    intro st t ht hl
    rcases List.mem_cons.mp ht with rfl | ht2
    · simp only [insertChecked]
      rw [if_pos hl]
      refine ⟨⟨t.hash, t.lt, t.utime, pid, false⟩, ?_, rfl⟩
      exact insertChecked_db_sub isLambo pid xs _ _
        (List.mem_append_right _ (List.mem_cons_self _ _))
    · simp only [insertChecked]
      split
      · exact ih _ t ht2 hl
      · exact ih _ t ht2 hl

theorem insertChecked_noop (isLambo : String → Bool) (pid : ℕ) :
    ∀ (sel : List UTx) (st : LoopSt), (∀ t ∈ sel, isLambo t.hash = false) →
      insertChecked isLambo pid sel st = st := by
  intro sel
  induction sel with
  | nil =>
    intro st _
    rfl
  | cons x xs ih =>
    intro st h
    simp only [insertChecked]
    rw [if_neg (by simp [h x (List.mem_cons_self x xs)])]
    exact ih st (fun t ht => h t (List.mem_cons_of_mem x ht))

theorem checkpointStep_zero (stopAt now : ℕ) (st : LoopSt)
    (h0 : st.added = 0) (h1 : st.maxAdded = 0) : checkpointStep stopAt now st = st := by
  unfold checkpointStep
  rw [if_pos (by rw [h0]), if_neg (by rw [h1]; exact Nat.not_lt_zero stopAt)]

theorem checkpointStep_db (stopAt now : ℕ) (st : LoopSt) :
    (checkpointStep stopAt now st).db = st.db ∧
    (checkpointStep stopAt now st).added = st.added := by
  unfold checkpointStep
  split
  · split
    · exact ⟨rfl, rfl⟩
    · exact ⟨rfl, rfl⟩
  · exact ⟨rfl, rfl⟩

theorem syncChunks_mono (stopAt now : ℕ) (isLambo : String → Bool) (pid : ℕ) :
    ∀ (chunks : List (List UTx)) (st : LoopSt) (x : CandTx), x ∈ st.db →
      x ∈ (syncChunks stopAt now isLambo pid chunks st).db := by
  intro chunks
  induction chunks with
  | nil =>
    intro st x hx
    exact hx
  | cons b bs ih =>
    intro st x hx
    simp only [syncChunks]
    apply ih
    rw [(checkpointStep_db stopAt now _).1]
    exact insertChecked_db_sub isLambo pid _ st x hx

theorem syncChunks_covers (now : ℕ) (isLambo : String → Bool) (pid : ℕ) :
    ∀ (chunks : List (List UTx)) (st : LoopSt) (b : List UTx) (t : UTx),
      b ∈ chunks → t ∈ b → isLambo t.hash = true →
      ∃ c ∈ (syncChunks 0 now isLambo pid chunks st).db, c.tx_hash = t.hash := by
  intro chunks
  induction chunks with
  | nil =>
    intro st b t hb
    exact absurd hb (List.not_mem_nil b)
  | cons b0 bs ih =>
    intro st b t hb ht hl
    simp only [syncChunks]
    rcases List.mem_cons.mp hb with rfl | hb2
    · rcases selectBatch_cover st.db b t ht with h1 | h1
      · obtain ⟨c0, hc0, hceq⟩ := List.any_eq_true.mp h1
        refine ⟨c0, ?_, eq_of_beq hceq⟩
        apply syncChunks_mono
        rw [(checkpointStep_db _ _ _).1]
        exact insertChecked_db_sub isLambo pid _ st c0 hc0
      · obtain ⟨c0, hc0, hceq⟩ := insertChecked_covers isLambo pid _ st t h1 hl
        refine ⟨c0, ?_, hceq⟩
        apply syncChunks_mono
        rw [(checkpointStep_db _ _ _).1]
        exact hc0
    · exact ih _ b t hb2 ht hl

theorem syncChunks_noop (stopAt now : ℕ) (isLambo : String → Bool) (pid : ℕ) :
    ∀ (chunks : List (List UTx)) (st : LoopSt),
      st.added = 0 → st.maxAdded = 0 →
      (∀ b ∈ chunks, ∀ t ∈ b, isLambo t.hash = true →
        st.db.any (fun c => c.tx_hash == t.hash) = true) →
      syncChunks stopAt now isLambo pid chunks st = st := by
  intro chunks
  induction chunks with
  | nil =>
    intro st _ _ _
    rfl
  | cons b bs ih =>
    intro st h0 h1 hcov
    simp only [syncChunks]
    have hins : insertChecked isLambo pid (selectBatch stopAt st.db b) st = st := by
      apply insertChecked_noop
      intro t ht
      obtain ⟨htb, hfalse⟩ := selectBatch_mem stopAt st.db b t ht
      cases hl : isLambo t.hash with
      | false => rfl
      | true =>
        have := hcov b (List.mem_cons_self b bs) t htb hl
        rw [hfalse] at this
        exact absurd this Bool.false_ne_true
    rw [hins, checkpointStep_zero stopAt now st h0 h1]
    exact ih st h0 h1 (fun b2 hb2 => hcov b2 (List.mem_cons_of_mem b hb2))

theorem syncChunks_below (stopAt now : ℕ) (isLambo : String → Bool) (pid : ℕ)
    (hst : 0 < stopAt) :
    ∀ (chunks : List (List UTx)) (st : LoopSt),
      st.added = 0 → st.maxAdded = 0 →
      (∀ b ∈ chunks, ∀ t ∈ b, t.lt ≤ stopAt) →
      syncChunks stopAt now isLambo pid chunks st = st := by
  intro chunks
  induction chunks with
  | nil =>
    intro st _ _ _
    rfl
  | cons b bs ih =>
    intro st h0 h1 hbelow
    simp only [syncChunks]
    rw [selectBatch_stop stopAt st.db b hst (hbelow b (List.mem_cons_self b bs))]
    rw [show insertChecked isLambo pid [] st = st from rfl]
    rw [checkpointStep_zero stopAt now st h0 h1]
    exact ih st h0 h1 (fun b2 hb2 => hbelow b2 (List.mem_cons_of_mem b hb2))

theorem syncFinish_db (a : List UTx) (s n : ℕ) (st : LoopSt) :
    (syncFinish a s n st).db = st.db ∧ (syncFinish a s n st).added = st.added := by
  unfold syncFinish
  split
  · split
    · exact ⟨rfl, rfl⟩
    · exact ⟨rfl, rfl⟩
  · exact ⟨rfl, rfl⟩

theorem syncFinish_zero (a : List UTx) (s n : ℕ) (st : LoopSt) (h : st.added = 0) :
    syncFinish a s n st = ⟨st.db, ⟨st.poolLt, st.poolSync⟩, st.added⟩ := by
  unfold syncFinish
  rw [if_neg (by rw [h]; simp)]

theorem fetch_resume_zero (hist : List UTx) :
    fetch_pool_transactions hist none (some 0) = [] := by
  have happ : apiPage hist (some 0) = [] := by
    unfold apiPage
    have hf : hist.filter (fun t => decide (t.lt < 0)) = [] :=
      List.filter_eq_nil_iff.mpr (fun a _ => by simp)
    show List.take 1000 (hist.filter (fun t => decide (t.lt < 0))) = []
    rw [hf]
    rfl
  simp only [fetch_pool_transactions, happ]
  simp

theorem initial_pool_sync_resume (hist : List UTx) (isLambo : String → Bool)
    (startTs now pid : ℕ) (c : ℕ) (sy : Option ℕ) (db : List CandTx) :
    initial_pool_sync hist isLambo startTs now pid ⟨some c, sy⟩ db = ⟨db, ⟨some c, sy⟩, 0⟩ := by
  have hfetch : backfillFetch hist startTs ⟨some c, sy⟩ =
      fetch_pool_transactions hist none (some c) := rfl
  by_cases hc : c = 0
  · subst hc
    unfold initial_pool_sync
    rw [hfetch, fetch_resume_zero]
    rfl
  · unfold initial_pool_sync
    rw [hfetch]
    have hall : ∀ t ∈ fetch_pool_transactions hist none (some c), t.lt < c :=
      fetch_resume_all_lt hist c
    have hchunks : syncChunks ((⟨some c, sy⟩ : PoolSt).last_processed_lt.getD 0) now isLambo pid
        (chunk4 (fetch_pool_transactions hist none (some c)))
        ⟨db, 0, 0, some c, sy⟩ = ⟨db, 0, 0, some c, sy⟩ := by
      apply syncChunks_below _ now isLambo pid (Nat.pos_of_ne_zero hc) _ _ rfl rfl
      intro b hb t ht
      exact le_of_lt (hall t (chunk4_mem _ b hb t ht))
    rw [hchunks, syncFinish_zero _ _ _ _ rfl]

/-- C7: running the backfill twice back-to-back against the same upstream
history and tracked-asset predicate: the second run inserts zero candidates,
leaves the transactions table unchanged, and leaves the pool row (in
particular `last_processed_lt`) unchanged. -/
theorem backfill_idempotent (hist : List UTx) (isLambo : String → Bool)
    (startTs now1 now2 pid : ℕ) (pool : PoolSt) (db : List CandTx) :
    (initial_pool_sync hist isLambo startTs now2 pid
      (initial_pool_sync hist isLambo startTs now1 pid pool db).pool
      (initial_pool_sync hist isLambo startTs now1 pid pool db).db).added = 0 ∧
    (initial_pool_sync hist isLambo startTs now2 pid
      (initial_pool_sync hist isLambo startTs now1 pid pool db).pool
      (initial_pool_sync hist isLambo startTs now1 pid pool db).db).db
      = (initial_pool_sync hist isLambo startTs now1 pid pool db).db ∧
    (initial_pool_sync hist isLambo startTs now2 pid
      (initial_pool_sync hist isLambo startTs now1 pid pool db).pool
      (initial_pool_sync hist isLambo startTs now1 pid pool db).db).pool
      = (initial_pool_sync hist isLambo startTs now1 pid pool db).pool := by
  set r1 := initial_pool_sync hist isLambo startTs now1 pid pool db with hr1
  cases hp : r1.pool.last_processed_lt with
  | some c =>
    rw [show r1.pool = ⟨some c, r1.pool.last_sync_timestamp⟩ from by rw [← hp]]
    rw [initial_pool_sync_resume]
    refine ⟨rfl, rfl, ?_⟩
    rw [← hp]
  | none =>
    have hpool0 : pool.last_processed_lt = none := by
      cases hq : pool.last_processed_lt with
      | none => rfl
      | some c =>
        have hres : r1 = ⟨db, ⟨some c, pool.last_sync_timestamp⟩, 0⟩ := by
          rw [hr1, show pool = ⟨some c, pool.last_sync_timestamp⟩ from by rw [← hq]]
          exact initial_pool_sync_resume hist isLambo startTs now1 pid c _ db
        rw [hres] at hp
        exact absurd hp (by simp)
    have hbf : backfillFetch hist startTs pool =
        fetch_pool_transactions hist (some startTs) none := by
      unfold backfillFetch
      rw [hpool0]
      rfl
    have hbf2 : backfillFetch hist startTs r1.pool =
        fetch_pool_transactions hist (some startTs) none := by
      unfold backfillFetch
      rw [hp]
      rfl
    have hr1db : r1.db = (syncChunks 0 now1 isLambo pid
        (chunk4 (fetch_pool_transactions hist (some startTs) none))
        ⟨db, 0, 0, none, pool.last_sync_timestamp⟩).db := by
      rw [hr1]
      unfold initial_pool_sync
      rw [hbf, hpool0]
      exact (syncFinish_db _ _ _ _).1
    have hcov : ∀ b ∈ chunk4 (fetch_pool_transactions hist (some startTs) none),
        ∀ t ∈ b, isLambo t.hash = true →
        r1.db.any (fun c => c.tx_hash == t.hash) = true := by
      intro b hb t ht hl
      obtain ⟨c0, hc0, hceq⟩ := syncChunks_covers now1 isLambo pid
        (chunk4 (fetch_pool_transactions hist (some startTs) none))
        ⟨db, 0, 0, none, pool.last_sync_timestamp⟩ b t hb ht hl
      rw [hr1db]
      exact List.any_eq_true.mpr ⟨c0, hc0, beq_iff_eq.mpr hceq⟩
    unfold initial_pool_sync
    rw [hbf2, hp]
    have hnoop : syncChunks ((none : Option ℕ).getD 0) now2 isLambo pid
        (chunk4 (fetch_pool_transactions hist (some startTs) none))
        ⟨r1.db, 0, 0, none, r1.pool.last_sync_timestamp⟩
        = ⟨r1.db, 0, 0, none, r1.pool.last_sync_timestamp⟩ :=
      syncChunks_noop _ now2 isLambo pid _ _ rfl rfl hcov
    rw [hnoop, syncFinish_zero _ _ _ _ rfl]
    refine ⟨rfl, rfl, ?_⟩
    rw [← hp]

/-- One classified (promoted) transaction as read back by the aggregator and
the late-join reconciler: user address, operation type, TON amount, tracked
asset amount and the stored fiat price of the native token. -/
structure CTx where
  user : String
  op : String
  ton : ℚ
  lambo : ℚ
  price : ℚ
deriving DecidableEq

/-- Aggregation-level view of the store: the classified rows
(`is_processed = true`) and the wallet rows. -/
structure AggSt where
  classified : List CTx
  wallets : List WalletW
deriving DecidableEq

/-- The three operations that touch wallet totals, serialized by the tracker
loop: a promotion plus aggregator update (process_transaction), a wallet
registration (wallet_service, which creates the row with zero totals and
`sync_status = "pending"`), and one late-join reconciliation of an address
(one iteration of sync_new_wallets). -/
inductive AggOp where
  | classify (t : CTx)
  | register (a : String)
  | reconcile (a : String)
deriving DecidableEq

/-- SQL aggregate of sync_new_wallets (tracker.py lines 395-409):
`sum(<f>)` over classified rows with `user_address = a`. -/
def sqlSum (cls : List CTx) (a : String) (f : CTx → ℚ) : ℚ :=
  ((cls.filter (fun t => t.user == a)).map f).sum

/-- Effect of one sync_new_wallets iteration on the selected wallet
(tracker.py lines 391-426): recompute the six volumes from the classified
rows (`case` splitting on operation_type, usd as ton_amount * ton_usd_price),
set each total to buy + sell, mark `synced` and `initial_sync_completed`. -/
def reconcileWallet (cls : List CTx) (w : WalletW) : WalletW :=
  let buyL := sqlSum cls w.address (fun t => if t.op == "buy" then t.lambo else 0)
  let buyT := sqlSum cls w.address (fun t => if t.op == "buy" then t.ton else 0)
  let buyU := sqlSum cls w.address (fun t => if t.op == "buy" then t.ton * t.price else 0)
  let sellL := sqlSum cls w.address (fun t => if t.op == "sell" then t.lambo else 0)
  let sellT := sqlSum cls w.address (fun t => if t.op == "sell" then t.ton else 0)
  let sellU := sqlSum cls w.address (fun t => if t.op == "sell" then t.ton * t.price else 0)
  { w with
    buy_volume_lambo := buyL
    buy_volume_ton := buyT
    buy_volume_usd := buyU
    sell_volume_lambo := sellL
    sell_volume_ton := sellT
    sell_volume_usd := sellU
    total_volume_lambo := buyL + sellL
    total_volume_ton := buyT + sellT
    total_volume_usd := buyU + sellU
    sync_status := "synced"
    initial_sync_completed := true }

/-- One serialized step of the aggregation subsystem.  `classify` appends
the promoted row and applies update_wallet_volumes (a silent no-op when the
wallet row is absent); `register` inserts a fresh pending wallet if the
address is new; `reconcile` applies the sync_new_wallets body to the
pending, active wallet with that address. -/
def stepOp (st : AggSt) : AggOp → AggSt
  | .classify t =>
    { classified := st.classified ++ [t],
      wallets := update_wallet_volumes t.user t.op t.ton t.lambo t.price st.wallets }
  | .register a =>
    if st.wallets.any (fun w => w.address == a) then st
    else { st with wallets := st.wallets ++ [⟨a, 0, 0, 0, 0, 0, 0, 0, 0, 0, "pending", false, true⟩] }
  | .reconcile a =>
    { st with wallets := st.wallets.map (fun w =>
        if w.address == a && w.sync_status == "pending" && w.is_active then
          reconcileWallet st.classified w
        else w) }

/-- A run of the aggregation subsystem from the empty store. -/
def runOps (ops : List AggOp) : AggSt := ops.foldl stepOp ⟨[], []⟩

/-- The `total_* = buy_* + sell_*` part of the claimed invariant. -/
def totalsSplit (w : WalletW) : Prop :=
  w.total_volume_lambo = w.buy_volume_lambo + w.sell_volume_lambo ∧
  w.total_volume_ton = w.buy_volume_ton + w.sell_volume_ton ∧
  w.total_volume_usd = w.buy_volume_usd + w.sell_volume_usd

/-- The `running total = sum over classified rows` part of the claimed
invariant, one equation per buy/sell totals in each unit. -/
def walletSums (cls : List CTx) (w : WalletW) : Prop :=
  w.buy_volume_lambo = sqlSum cls w.address (fun t => if t.op == "buy" then t.lambo else 0) ∧
  w.buy_volume_ton = sqlSum cls w.address (fun t => if t.op == "buy" then t.ton else 0) ∧
  w.buy_volume_usd = sqlSum cls w.address (fun t => if t.op == "buy" then t.ton * t.price else 0) ∧
  w.sell_volume_lambo = sqlSum cls w.address (fun t => if t.op == "sell" then t.lambo else 0) ∧
  w.sell_volume_ton = sqlSum cls w.address (fun t => if t.op == "sell" then t.ton else 0) ∧
  w.sell_volume_usd = sqlSum cls w.address (fun t => if t.op == "sell" then t.ton * t.price else 0)

theorem applyVolumes_buy (ton lambo price : ℚ) (w : WalletW) :
    applyVolumes "buy" ton lambo price w =
      { w with
        buy_volume_lambo := w.buy_volume_lambo + lambo
        buy_volume_ton := w.buy_volume_ton + ton
        buy_volume_usd := w.buy_volume_usd + ton * price
        total_volume_lambo := w.buy_volume_lambo + lambo + w.sell_volume_lambo
        total_volume_ton := w.buy_volume_ton + ton + w.sell_volume_ton
        total_volume_usd := w.buy_volume_usd + ton * price + w.sell_volume_usd } := rfl

theorem applyVolumes_sell (ton lambo price : ℚ) (w : WalletW) :
    applyVolumes "sell" ton lambo price w =
      { w with
        sell_volume_lambo := w.sell_volume_lambo + lambo
        sell_volume_ton := w.sell_volume_ton + ton
        sell_volume_usd := w.sell_volume_usd + ton * price
        total_volume_lambo := w.buy_volume_lambo + (w.sell_volume_lambo + lambo)
        total_volume_ton := w.buy_volume_ton + (w.sell_volume_ton + ton)
        total_volume_usd := w.buy_volume_usd + (w.sell_volume_usd + ton * price) } := rfl

theorem sqlSum_append (cls : List CTx) (t : CTx) (a : String) (f : CTx → ℚ) :
    sqlSum (cls ++ [t]) a f = sqlSum cls a f + (if t.user == a then f t else 0) := by
  unfold sqlSum
  rw [List.filter_append]
  by_cases h : (t.user == a) = true
  · rw [if_pos h]
    simp [List.filter_cons, h]
  · rw [if_neg h]
    simp [List.filter_cons, h]

theorem stepOp_inv (st : AggSt) (op : AggOp)
    (hwf : ∀ t, op = .classify t → t.op = "buy" ∨ t.op = "sell")
    (hinv : ∀ w ∈ st.wallets,
      totalsSplit w ∧ (w.sync_status = "synced" → walletSums st.classified w)) :
    ∀ w ∈ (stepOp st op).wallets,
      totalsSplit w ∧ (w.sync_status = "synced" → walletSums (stepOp st op).classified w) := by
  cases op with
  | classify t =>
    intro w' hw'
    simp only [stepOp, update_wallet_volumes] at hw' ⊢
    obtain ⟨w, hw, rfl⟩ := List.mem_map.mp hw'
    obtain ⟨hsplit, hsums⟩ := hinv w hw
    by_cases haddr : (w.address == t.user) = true
    · rw [if_pos haddr]
      have haddr' : w.address = t.user := eq_of_beq haddr
      have hbeq : (t.user == w.address) = true := beq_iff_eq.mpr haddr'.symm
      rcases hwf t rfl with hop | hop
      · have hopb : (t.op == "buy") = true := by rw [hop]; decide
        have hops : (t.op == "sell") = false := by rw [hop]; decide
        constructor
        · rw [hop, applyVolumes_buy]
          exact ⟨rfl, rfl, rfl⟩
        · intro hsync
          have hsync' : w.sync_status = "synced" := by
            rw [hop, applyVolumes_buy] at hsync
            exact hsync
          obtain ⟨s1, s2, s3, s4, s5, s6⟩ := hsums hsync'
          rw [hop, applyVolumes_buy]
          refine ⟨?_, ?_, ?_, ?_, ?_, ?_⟩ <;>
            simp [sqlSum_append, hbeq, hopb, hops, s1, s2, s3, s4, s5, s6, hop]
      · have hopb : (t.op == "buy") = false := by rw [hop]; decide
        have hops : (t.op == "sell") = true := by rw [hop]; decide
        constructor
        · rw [hop, applyVolumes_sell]
          exact ⟨rfl, rfl, rfl⟩
        · intro hsync
          have hsync' : w.sync_status = "synced" := by
            rw [hop, applyVolumes_sell] at hsync
            exact hsync
          obtain ⟨s1, s2, s3, s4, s5, s6⟩ := hsums hsync'
          rw [hop, applyVolumes_sell]
          refine ⟨?_, ?_, ?_, ?_, ?_, ?_⟩ <;>
            simp [sqlSum_append, hbeq, hopb, hops, s1, s2, s3, s4, s5, s6, hop]
    · rw [if_neg haddr]
      have hne : (t.user == w.address) = false := by
        refine beq_eq_false_iff_ne.mpr ?_
        intro hcontra
        exact absurd (beq_iff_eq.mpr hcontra.symm) haddr
      refine ⟨hsplit, ?_⟩
      intro hsync
      obtain ⟨s1, s2, s3, s4, s5, s6⟩ := hsums hsync
      refine ⟨?_, ?_, ?_, ?_, ?_, ?_⟩ <;>
        simp [sqlSum_append, hne, s1, s2, s3, s4, s5, s6]
  | register a =>
    intro w hw
    simp only [stepOp] at hw ⊢
    by_cases hq : st.wallets.any (fun w => w.address == a) = true
    · rw [if_pos hq] at hw ⊢
      exact hinv w hw
    · rw [if_neg hq] at hw ⊢
      rcases List.mem_append.mp hw with h1 | h1
      · exact hinv w h1
      · have hw2 := List.eq_of_mem_singleton h1
        subst hw2
        constructor
        · exact ⟨by norm_num, by norm_num, by norm_num⟩
        · intro hsync
          have hps : ("pending" : String) = "synced" := hsync
          exact absurd hps (by decide)
  | reconcile a =>
    intro w' hw'
    simp only [stepOp] at hw' ⊢
    obtain ⟨w0, hw0, rfl⟩ := List.mem_map.mp hw'
    by_cases hc : (w0.address == a && w0.sync_status == "pending" && w0.is_active) = true
    · rw [if_pos hc]
      constructor
      · exact ⟨rfl, rfl, rfl⟩
      · intro _
        exact ⟨rfl, rfl, rfl, rfl, rfl, rfl⟩
    · rw [if_neg hc]
      exact hinv w0 hw0

theorem runOps_go (ops : List AggOp) :
    ∀ (st : AggSt),
      (∀ t, AggOp.classify t ∈ ops → t.op = "buy" ∨ t.op = "sell") →
      (∀ w ∈ st.wallets,
        totalsSplit w ∧ (w.sync_status = "synced" → walletSums st.classified w)) →
      ∀ w ∈ (ops.foldl stepOp st).wallets,
        totalsSplit w ∧
          (w.sync_status = "synced" → walletSums (ops.foldl stepOp st).classified w) := by
  induction ops with
  | nil =>
    intro st _ hinv
    simpa using hinv
  | cons op ops ih =>
    intro st hwf hinv
    simp only [List.foldl_cons]
    exact ih (stepOp st op)
      (fun t ht => hwf t (List.mem_cons_of_mem op ht))
      (stepOp_inv st op
        (fun t hop => hwf t (by rw [← hop]; exact List.mem_cons_self op ops)) hinv)

/-- C5 (amended): for every wallet row, after any serialized sequence of
aggregator updates, registrations and reconciliations in which every
classified transaction carries operation_type buy or sell,
`total_u = buy_u + sell_u` holds in all three units; and for every wallet
that has completed its late-join reconciliation (`sync_status = "synced"`),
each running total equals the corresponding sum over the classified rows of
its address.  For a wallet registered after some of its transactions were
classified and not yet reconciled, the sum equality can fail (see the
counterexample). -/
theorem synced_wallet_totals_invariant (ops : List AggOp)
    (hwf : ∀ t, AggOp.classify t ∈ ops → t.op = "buy" ∨ t.op = "sell") :
    ∀ w ∈ (runOps ops).wallets,
      totalsSplit w ∧ (w.sync_status = "synced" → walletSums (runOps ops).classified w) :=
  runOps_go ops ⟨[], []⟩ hwf (fun w hw => absurd hw (List.not_mem_nil w))

def c5t : CTx := ⟨"A", "buy", 1, 1, 1⟩

def c5witOps : List AggOp :=
  [.register "A", .reconcile "A", .classify ⟨"A", "buy", 1, 2, 3⟩]

/-- The wallet produced by the witness run: registered, reconciled (now
synced), then updated by one classified buy. -/
def c5wit : WalletW :=
  applyVolumes "buy" 1 2 3
    (reconcileWallet [] ⟨"A", 0, 0, 0, 0, 0, 0, 0, 0, 0, "pending", false, true⟩)

/-- Witness for the amended C5 invariant at the concrete run
register, reconcile, classify-buy. -/
theorem synced_wallet_totals_invariant_witness :
    totalsSplit c5wit ∧ (c5wit.sync_status = "synced" →
      walletSums (runOps c5witOps).classified c5wit) :=
  synced_wallet_totals_invariant c5witOps
    (by
      intro t ht
      simp only [c5witOps, List.mem_cons, List.not_mem_nil, or_false] at ht
      rcases ht with h | h | h
      · exact AggOp.noConfusion h
      · exact AggOp.noConfusion h
      · injection h with h2
        rw [h2]
        exact Or.inl rfl)
    c5wit (List.mem_singleton.mpr rfl)

def c5ops : List AggOp := [.classify c5t, .register "A", .classify c5t]

def c5w : WalletW :=
  applyVolumes "buy" 1 1 1 ⟨"A", 0, 0, 0, 0, 0, 0, 0, 0, 0, "pending", false, true⟩

/-- C5: counterexample to the unrestricted claim.  A transaction for address
A is classified before A is registered (the aggregator silently drops the
update); A is then registered with zero totals; a second transaction for A
is classified and applied.  Immediately after that aggregator update, A's
stored buy volume is 1 while the sum over A's classified rows is 2: the
running total does not equal the per-address sum. -/
theorem totals_mismatch_before_reconciliation :
    (runOps c5ops).wallets = [c5w] ∧
    c5w.sync_status = "pending" ∧
    c5w.buy_volume_lambo = 1 ∧
    sqlSum (runOps c5ops).classified "A" (fun t => if t.op == "buy" then t.lambo else 0) = 2 ∧
    c5w.buy_volume_lambo ≠
      sqlSum (runOps c5ops).classified "A" (fun t => if t.op == "buy" then t.lambo else 0) := by
  refine ⟨rfl, rfl, ?_, ?_, ?_⟩
  · show (0 : ℚ) + 1 = 1
    norm_num
  · show (if ("buy" == "buy") = true then (1 : ℚ) else 0) +
      ((if ("buy" == "buy") = true then (1 : ℚ) else 0) + 0) = 2
    norm_num
  · show (0 : ℚ) + 1 ≠ (if ("buy" == "buy") = true then (1 : ℚ) else 0) +
      ((if ("buy" == "buy") = true then (1 : ℚ) else 0) + 0)
    norm_num

/-- Wallet row fields read by the leaderboard rebuild
(`models.Wallet`: address, user identity link, active flag, fiat total). -/
structure WalletLB where
  address : String
  user_id : Option ℕ
  is_active : Bool
  total_volume_usd : ℚ
deriving DecidableEq

/-- The column attributes defined on `models.Wallet` (models.py lines
17-47).  There is no `total_volume` column: the totals are
`total_volume_lambo`, `total_volume_ton`, `total_volume_usd`. -/
def walletColumns : List String :=
  ["id", "user_id", "address", "label", "count_buys", "count_sells",
   "buy_volume_lambo", "sell_volume_lambo", "total_volume_lambo",
   "buy_volume_ton", "sell_volume_ton", "total_volume_ton",
   "buy_volume_usd", "sell_volume_usd", "total_volume_usd",
   "sync_status", "initial_sync_completed", "created_at", "is_active"]

/-- The attribute access `Wallet.total_volume` performed while building the
rebuild query (leaderboard_service.py line 81) and reading each row (line
90).  `models.Wallet` defines no such attribute (see `walletColumns`), so
the lookup raises `AttributeError`; `none` models that failure. -/
def wallet_total_volume? : Option (WalletLB → ℚ) := none

/-- Result value of rebuild_leaderboard_from_db: the dict
`{"rebuilt": n, "total": n}` on success, or the `except` fallback
`{"rebuilt": 0, "error": ...}`. -/
inductive RebuildRes where
  | ok (rebuilt total : ℕ)
  | error
deriving DecidableEq

/-- Descending insertion by score, modelling `order_by(<column>.desc())`. -/
def insertDesc (f : WalletLB → ℚ) (w : WalletLB) : List WalletLB → List WalletLB
  | [] => [w]
  | x :: xs => if f x < f w then w :: x :: xs else x :: insertDesc f w xs

def sortByDesc (f : WalletLB → ℚ) : List WalletLB → List WalletLB
  | [] => []
  | w :: ws => insertDesc f w (sortByDesc f ws)

/-- rebuild_leaderboard_from_db (leaderboard_service.py lines 73-100): the
ordered index (a Redis sorted set, modelled as its written (member, score)
pairs) is cleared FIRST; then the query over active wallets with a linked
user, ordered descending by the `total_volume` attribute, would write one
pair per wallet — but the attribute lookup fails (`wallet_total_volume?` is
`none`), the exception is caught, and the function returns the error dict
with the index left cleared. -/
def rebuild_leaderboard_from_db (wallets : List WalletLB) (idx : List (String × ℚ)) :
    List (String × ℚ) × RebuildRes :=
  match wallet_total_volume? with
  | some f =>
    let ws := sortByDesc f (wallets.filter (fun w => w.is_active && w.user_id.isSome))
    (ws.map (fun w => (w.address, f w)), .ok ws.length ws.length)
  | none => ([], .error)

def c6wallet : WalletLB := ⟨"0:aa", some 1, true, 5⟩

/-- C6: evaluation of the index rebuild at a store holding one active
address with an associated identity and fiat total 5, and a stale index
entry.  The rebuild clears the index and then fails with the error result
(AttributeError on the nonexistent `Wallet.total_volume` column): afterwards
the index is empty — it does not contain the (address, total_usd) pair the
claim requires. -/
theorem rebuild_leaderboard_crashes_after_clear :
    rebuild_leaderboard_from_db [c6wallet] [("stale", 3)] = ([], .error) ∧
    c6wallet.is_active = true ∧
    c6wallet.user_id.isSome = true ∧
    c6wallet.total_volume_usd = 5 :=
  ⟨rfl, rfl, rfl, rfl⟩
